import Mathlib

/-!
Verification development for the movie-recommender GUI window
(`gui/recommender_gui.py`).  The window's handlers are embedded as pure
Lean functions: time stamps, the CSV parser and the data-directory listing
become explicit parameters, the Qt combo box of datasets becomes a list of
name/table pairs, the logger becomes a trace of (level, message) records
and the filesystem touched by the query-completion handler becomes an
explicit state of file paths and directory paths.
-/

namespace RecGui

/-- A filesystem path, as the list of its segments.  `os.path.join(root, f)`
corresponds to appending one segment. -/
abbrev Path := List String

/-- Render a path the way `os.path.join` concatenates it on a POSIX system. -/
def pathStr (p : Path) : String := String.intercalate "/" p

/-- Table of rows with named columns; stands for a `pandas.DataFrame`. -/
structure DataFrame where
  header : List String
  rows : List (List String)
deriving DecidableEq

/-- Severity levels of the logging sink (`common/logger.py` is not part of
the sources; modelled from the spec's "leveled logging (debug/info/error)"). -/
inductive LogLevel where
  | debug
  | info
  | error
deriving DecidableEq

/-- A message given to the logger: either a plain (formatted) string or a
logged exception object, as in `self._logger.error(e)`. -/
inductive LogMsg where
  | text (s : String)
  | exc (e : String)
deriving DecidableEq

/-- One record of the log trace. -/
abbrev LogEntry := LogLevel × LogMsg

/-- The mutable state of the main window that the handlers touch:
the dataset combo box (name/table pairs, append-only), the chat box
contents, the chat input field, and the log trace. -/
structure GuiState where
  datasets : List (String × DataFrame)
  chatBox : List String
  userInput : String
  log : List LogEntry
deriving DecidableEq

/-- Python `str.endswith`, via character lists. -/
def pyEndsWith (s t : String) : Bool := t.toList.isSuffixOf s.toList

/-- Python `str.startswith`, via character lists. -/
def pyStartsWith (s t : String) : Bool := t.toList.isPrefixOf s.toList

/-- Python `file.split('.')[0]`: everything before the first dot
(the whole string when it has no dot). -/
def pySplitDotHead (s : String) : String :=
  String.mk (s.toList.takeWhile (fun c => c ≠ '.'))

/-- The fixed startup data directory `./data`. -/
def dataRoot : Path := ["./data"]

/-- Embedding of `RecommenderGui._set_initial_data`: for every entry of the
data directory listing, try to parse it as CSV; on success register a
dataset named `file.split('.')[0]`, on failure log the path and the error
and continue with the next file.  `readCSV` stands for `pd.read_csv`. -/
def set_initial_data (readCSV : Path → Except String DataFrame) :
    List String → GuiState → GuiState
  | [], st => st
  | f :: rest, st =>
    let st' :=
      match readCSV (dataRoot ++ [f]) with
      | .ok df => { st with datasets := st.datasets ++ [(pySplitDotHead f, df)] }
      | .error e =>
        { st with log := st.log ++
            [(.error, .text ("Unable to convert file to dataframe: " ++ pathStr (dataRoot ++ [f]))),
             (.error, .exc e)] }
    set_initial_data readCSV rest st'

/-- The fixed greeting appended to the chat box by `__init__`. -/
def botGreeting : String := "Bot: What type of movie would you like to watch?"

/-- Embedding of `RecommenderGui.__init__` restricted to the state the
claims are about: the chat box receives one timestamped bot message, the
logger records the startup message, then `_set_initial_data` runs on the
startup directory listing. -/
def recommender_init (nowFull : String) (readCSV : Path → Except String DataFrame)
    (dataFiles : List String) : GuiState :=
  let st : GuiState :=
    { datasets := [], chatBox := ["[" ++ nowFull ++ "] " ++ botGreeting],
      userInput := "", log := [] }
  let st := { st with log := st.log ++ [(.info, .text "Running movie recommendation app")] }
  set_initial_data readCSV dataFiles st

/-- Embedding of `RecommenderGui._user_chatted`: Python's `if message:`
is a plain non-emptiness test on the input string. -/
def user_chatted (nowFull : String) (st : GuiState) : GuiState :=
  let message := st.userInput
  if message = "" then st
  else
    { st with
      chatBox := st.chatBox ++ ["[" ++ nowFull ++ "] User: " ++ message],
      userInput := "" }

/-- Embedding of `RecommenderGui._finish_import`: log, then register the
finished dataset under its given name. -/
def finish_import (dataset : String × DataFrame) (st : GuiState) : GuiState :=
  let st := { st with log := st.log ++ [(LogLevel.info, LogMsg.text ("Importing new dataset: " ++ dataset.1))] }
  { st with datasets := st.datasets ++ [dataset] }

/-- Observable actions of `RecommenderGui.closeEvent`. -/
inductive CloseAction where
  | closeImportWidget
  | closeQueryWidget
  | closeTableWidget
  | superCloseEvent
deriving DecidableEq

/-- Embedding of `RecommenderGui.closeEvent` as the ordered trace of the
calls it performs. -/
def closeEvent : List CloseAction :=
  [.closeImportWidget, .closeQueryWidget, .closeTableWidget, .superCloseEvent]

mutual
/-- A node of the scratch directory tree: a file or a directory. -/
inductive FSTree where
  | file (name : String)
  | dir (name : String) (children : FSForest)
/-- The ordered children of a directory (the order `os` lists entries in). -/
inductive FSForest where
  | nil
  | cons (t : FSTree) (ts : FSForest)
end

/-- One triple yielded by `os.walk`: the directory's path, the names of its
subdirectories and the names of its files. -/
structure WalkEntry where
  root : Path
  dirs : List String
  files : List String
deriving DecidableEq

/-- The entry name of a tree node. -/
def nameOf : FSTree → String
  | .file n => n
  | .dir n _ => n

/-- Names of the file children of a directory, in listing order. -/
def childFiles : FSForest → List String
  | .nil => []
  | .cons (.file n) ts => n :: childFiles ts
  | .cons (.dir _ _) ts => childFiles ts

/-- Names of the subdirectory children of a directory, in listing order. -/
def childDirs : FSForest → List String
  | .nil => []
  | .cons (.file _) ts => childDirs ts
  | .cons (.dir n _) ts => n :: childDirs ts

/-- Names of all children, in listing order. -/
def childNames : FSForest → List String
  | .nil => []
  | .cons t ts => nameOf t :: childNames ts

mutual
/-- Paths of all files in the subtree of a node whose parent is `p`. -/
def filePathsT (p : Path) : FSTree → List Path
  | .file n => [p ++ [n]]
  | .dir n cs => filePathsF (p ++ [n]) cs
/-- Paths of all files below a directory with path `p` and children `cs`. -/
def filePathsF (p : Path) : FSForest → List Path
  | .nil => []
  | .cons t ts => filePathsT p t ++ filePathsF p ts
end

mutual
/-- Paths of all directories in the subtree of a node whose parent is `p`
(for a directory node, its own path included). -/
def dirPathsT (p : Path) : FSTree → List Path
  | .file _ => []
  | .dir n cs => (p ++ [n]) :: dirPathsF (p ++ [n]) cs
/-- Paths of all directories strictly below a directory with path `p`. -/
def dirPathsF (p : Path) : FSForest → List Path
  | .nil => []
  | .cons t ts => dirPathsT p t ++ dirPathsF p ts
end

mutual
/-- Entries yielded by a top-down `os.walk` for the subtree of one node. -/
def walkTDT (p : Path) : FSTree → List WalkEntry
  | .file _ => []
  | .dir n cs => ⟨p ++ [n], childDirs cs, childFiles cs⟩ :: walkTDF (p ++ [n]) cs
/-- Entries yielded by a top-down `os.walk` below a directory with path `p`,
in listing order of its children. -/
def walkTDF (p : Path) : FSForest → List WalkEntry
  | .nil => []
  | .cons t ts => walkTDT p t ++ walkTDF p ts
end

mutual
/-- Entries yielded by a bottom-up `os.walk` for the subtree of one node:
the node's own entry comes after all entries of its subdirectories. -/
def walkBUT (p : Path) : FSTree → List WalkEntry
  | .file _ => []
  | .dir n cs => walkBUF (p ++ [n]) cs ++ [⟨p ++ [n], childDirs cs, childFiles cs⟩]
/-- Entries yielded by a bottom-up `os.walk` below a directory with path `p`. -/
def walkBUF (p : Path) : FSForest → List WalkEntry
  | .nil => []
  | .cons t ts => walkBUT p t ++ walkBUF p ts
end

/-- Full trace of `os.walk(root)` with `topdown=True` on a directory `root`
whose children are `cs`: the root's entry first. -/
def osWalkTD (root : Path) (cs : FSForest) : List WalkEntry :=
  ⟨root, childDirs cs, childFiles cs⟩ :: walkTDF root cs

/-- Full trace of `os.walk(root, topdown=False)`: the root's entry last. -/
def osWalkBU (root : Path) (cs : FSForest) : List WalkEntry :=
  walkBUF root cs ++ [⟨root, childDirs cs, childFiles cs⟩]

mutual
/-- Well-formedness of a tree as a real directory tree. -/
def wfT : FSTree → Bool
  | .file _ => true
  | .dir _ cs => wfF cs
/-- Well-formedness of a forest of siblings: sibling names are distinct
(as in a real directory) and every subtree is well formed. -/
def wfF : FSForest → Bool
  | .nil => true
  | .cons t ts => !((childNames ts).contains (nameOf t)) && wfT t && wfF ts
end

/-- The path `q` lies strictly below the directory path `d`. -/
def pathUnder (d q : Path) : Prop := ∃ r, q = d ++ r ∧ r ≠ []

/-- Executable test for `pathUnder`. -/
def underB (d q : Path) : Bool := decide (q.take d.length = d) && decide (d.length < q.length)

theorem underB_iff (d q : Path) : underB d q = true ↔ pathUnder d q := by
  constructor
  · intro h
    simp only [underB, Bool.and_eq_true, decide_eq_true_eq] at h
    obtain ⟨htake, hlen⟩ := h
    refine ⟨q.drop d.length, ?_, ?_⟩
    · conv_lhs => rw [← List.take_append_drop d.length q]
      rw [htake]
    · intro hnil
      have := List.drop_eq_nil_iff.mp hnil
      omega
  · rintro ⟨r, rfl, hne⟩
    simp only [underB, Bool.and_eq_true, decide_eq_true_eq]
    constructor
    · simp [List.take_left d r]
    · have : 0 < r.length := List.length_pos.mpr hne
      simp [List.length_append]
      omega

instance (d q : Path) : Decidable (pathUnder d q) :=
  decidable_of_iff (underB d q = true) (underB_iff d q)

/-- The state of the filesystem region the cleanup walk operates on:
the set of existing file paths and the set of existing directory paths. -/
structure FS where
  files : Finset Path
  dirs : Finset Path
deriving DecidableEq

/-- Python `os.remove`, over the explicit filesystem state.  `faults`
injects environmental failures (permissions, races); `os.remove` also
raises when the path does not exist. -/
def os_remove (faults : Path → Bool) (p : Path) (fs : FS) : Except String FS :=
  if faults p then .error ("OSError: " ++ pathStr p)
  else if p ∈ fs.files then .ok { fs with files := fs.files.erase p }
  else .error ("FileNotFoundError: " ++ pathStr p)

/-- Python `os.rmdir`, over the explicit filesystem state: raises on a
fault, on a missing path, and on a non-empty directory. -/
def os_rmdir (faults : Path → Bool) (p : Path) (fs : FS) : Except String FS :=
  if faults p then .error ("OSError: " ++ pathStr p)
  else if p ∈ fs.dirs then
    if (∃ q ∈ fs.files, pathUnder p q) ∨ (∃ q ∈ fs.dirs, pathUnder p q) then
      .error ("OSError: Directory not empty: " ++ pathStr p)
    else .ok { fs with dirs := fs.dirs.erase p }
  else .error ("FileNotFoundError: " ++ pathStr p)

/-- State threaded through the cleanup loops of `_finish_query`: the
filesystem, the current value of the (shadowed) variable `name`, and the
log records emitted so far by the loops. -/
structure CleanupSt where
  fs : FS
  name : String
  log : List LogEntry
deriving DecidableEq

/-- The inner `for name in files:` loop of the cleanup walk: `name` is
bound to the entry name, then `os.remove` runs (a raised exception
propagates, skipping the debug log of that iteration and the rest). -/
def removeFilesLoop (faults : Path → Bool) (root : Path) :
    List String → CleanupSt → CleanupSt × Option String
  | [], s => (s, none)
  | f :: rest, s =>
    let s := { s with name := f }
    match os_remove faults (root ++ [f]) s.fs with
    | .error e => (s, some e)
    | .ok fs =>
      removeFilesLoop faults root rest
        { s with fs := fs, log := s.log ++ [(.debug, .text ("Removing file " ++ f))] }

/-- The inner `for name in dirs:` loop of the cleanup walk. -/
def removeDirsLoop (faults : Path → Bool) (root : Path) :
    List String → CleanupSt → CleanupSt × Option String
  | [], s => (s, none)
  | d :: rest, s =>
    let s := { s with name := d }
    match os_rmdir faults (root ++ [d]) s.fs with
    | .error e => (s, some e)
    | .ok fs =>
      removeDirsLoop faults root rest
        { s with fs := fs, log := s.log ++ [(.debug, .text ("Removing sub directory " ++ d))] }

/-- Process one `os.walk` entry of the cleanup walk: files first, then
subdirectories. -/
def runEntry (faults : Path → Bool) (e : WalkEntry) (s : CleanupSt) :
    CleanupSt × Option String :=
  match removeFilesLoop faults e.root e.files s with
  | (s', some err) => (s', some err)
  | (s', none) => removeDirsLoop faults e.root e.dirs s'

/-- The whole cleanup walk of `_finish_query`, over the bottom-up entry
list; an exception aborts the remaining iterations. -/
def runEntries (faults : Path → Bool) : List WalkEntry → CleanupSt → CleanupSt × Option String
  | [], s => (s, none)
  | e :: es, s =>
    match runEntry faults e s with
    | (s', some err) => (s', some err)
    | (s', none) => runEntries faults es s'

/-- The reading loop of `_finish_query` over the files of one walk entry:
log a debug line for each file, and for files ending in `.csv` try to
parse them, logging path and error on failure.  Returns the parsed tables
in order together with the log records of the loop. -/
def readFilesLoop (readCSV : Path → Except String DataFrame) (root : Path) :
    List String → List DataFrame × List LogEntry
  | [] => ([], [])
  | f :: rest =>
    let dbg : LogEntry := (.debug, .text ("Reading file: " ++ f))
    let r := readFilesLoop readCSV root rest
    if pyEndsWith f ".csv" then
      match readCSV (root ++ [f]) with
      | .ok df => (df :: r.1, dbg :: r.2)
      | .error e =>
        (r.1, dbg :: (.error, .text ("Unable to convert file to dataframe: " ++ pathStr (root ++ [f]))) ::
          (LogLevel.error, LogMsg.exc e) :: r.2)
    else (r.1, dbg :: r.2)

/-- The whole reading phase of `_finish_query`, over the top-down walk. -/
def readPhase (readCSV : Path → Except String DataFrame) :
    List WalkEntry → List DataFrame × List LogEntry
  | [] => ([], [])
  | e :: es =>
    let a := readFilesLoop readCSV e.root e.files
    let b := readPhase readCSV es
    (a.1 ++ b.1, a.2 ++ b.2)

/-- The file paths a list of walk entries makes the reading loop visit. -/
def enumFiles : List WalkEntry → List Path
  | [] => []
  | e :: es => e.files.map (fun f => e.root ++ [f]) ++ enumFiles es

/-- Row-wise concatenation with `ignore_index=True`; stands for
`pd.concat`, which raises on an empty list and otherwise stacks the rows
of its arguments (the handler only calls it on compatible schemas). -/
def pd_concat : List DataFrame → Except String DataFrame
  | [] => .error "ValueError: No objects to concatenate"
  | d :: ds => .ok { header := d.header, rows := d.rows ++ (ds.map DataFrame.rows).flatten }

/-- The fixed scratch directory `./tmp_data` of the query cycle. -/
def tmpRoot : Path := ["./tmp_data"]

/-- The filesystem state corresponding to the scratch directory existing
with children `cs`. -/
def initFS (cs : FSForest) : FS :=
  { files := (filePathsF tmpRoot cs).toFinset,
    dirs := insert tmpRoot (dirPathsF tmpRoot cs).toFinset }

/-- No environmental filesystem faults. -/
def faults0 : Path → Bool := fun _ => false

/-- Result of one invocation of the query-completion handler: the window
state, the final filesystem state, and the exception that escaped the
handler, if any. -/
structure QueryResult where
  gui : GuiState
  fs : FS
  err : Option String
deriving DecidableEq

/-- Embedding of `RecommenderGui._finish_query`.  `name` is the result
identifier the query widget signals; `cs` are the children of the scratch
directory; `now` is `datetime.now().strftime("%H:%M:%S")` at the time the
combined dataset is built.  Mirrors the source: read all CSV files below
`./tmp_data` (top-down walk), then unconditionally delete every file and
every subdirectory (bottom-up walk) — where the loop variable `name`
shadows the parameter — and finally, if at least one table was parsed,
register one concatenated dataset named `name + '_' + now`, otherwise log
an informational message. -/
def finish_query (readCSV : Path → Except String DataFrame) (faults : Path → Bool)
    (now : String) (cs : FSForest) (name : String) (st : GuiState) : QueryResult :=
  let st := { st with log := st.log ++
    [(LogLevel.info, LogMsg.text "Done with query. Cleaning up tmp files and creating dataframe.")] }
  let rp := readPhase readCSV (osWalkTD tmpRoot cs)
  let dfs := rp.1
  let st := { st with log := st.log ++ rp.2 }
  match runEntries faults (osWalkBU tmpRoot cs) ⟨initFS cs, name, []⟩ with
  | (c, some e) => ⟨{ st with log := st.log ++ c.log }, c.fs, some e⟩
  | (c, none) =>
    let st := { st with log := st.log ++ c.log }
    if dfs.isEmpty then
      ⟨{ st with log := st.log ++ [(LogLevel.info, LogMsg.text "No dataset created")] }, c.fs, none⟩
    else
      match pd_concat dfs with
      | .ok df =>
        ⟨{ st with datasets := st.datasets ++ [(c.name ++ "_" ++ now, df)] }, c.fs, none⟩
      | .error e =>
        ⟨{ st with log := st.log ++
            [(LogLevel.error, LogMsg.text "Unable to concat dataframes."),
             (LogLevel.error, LogMsg.exc e)] }, c.fs, none⟩

/-- File paths the bottom-up walk of a forest removes: everything below a
directory child (direct file children are removed by the parent's entry,
which is outside the forest's own walk). -/
def remFilesF (p : Path) : FSForest → List Path
  | .nil => []
  | .cons (.file _) ts => remFilesF p ts
  | .cons (.dir n gs) ts => filePathsF (p ++ [n]) gs ++ remFilesF p ts

/-- Directory paths the bottom-up walk of a forest removes: everything
strictly below a directory child (the child itself is removed by the
parent's entry). -/
def remDirsF (p : Path) : FSForest → List Path
  | .nil => []
  | .cons (.file _) ts => remDirsF p ts
  | .cons (.dir n gs) ts => dirPathsF (p ++ [n]) gs ++ remDirsF p ts

/-- The forest has a directory child named `n` with children `gs`. -/
def memDir (n : String) (gs : FSForest) : FSForest → Prop
  | .nil => False
  | .cons t ts => t = .dir n gs ∨ memDir n gs ts

theorem under_trivial (p : Path) (n : String) : pathUnder p (p ++ [n]) :=
  ⟨[n], rfl, by simp⟩

theorem under_extend {p : Path} {n : String} {q : Path}
    (h : pathUnder (p ++ [n]) q) : pathUnder p q := by
  obtain ⟨r, rfl, _⟩ := h
  exact ⟨n :: r, by simp, by simp⟩

theorem under_singleton {p : Path} {n f : String}
    (h : pathUnder (p ++ [n]) (p ++ [f])) : False := by
  obtain ⟨r, hr, hne⟩ := h
  rw [List.append_assoc] at hr
  have h2 := List.append_cancel_left hr
  cases r with
  | nil => exact hne rfl
  | cons a as => simp at h2

theorem under_same_parent {p : Path} {n m : String} {q : Path}
    (h1 : pathUnder (p ++ [n]) q) (h2 : pathUnder (p ++ [m]) q) : n = m := by
  obtain ⟨r, rfl, _⟩ := h1
  obtain ⟨r', hr', _⟩ := h2
  rw [List.append_assoc, List.append_assoc] at hr'
  have h2 := List.append_cancel_left hr'
  have h3 : n = m ∧ r = r' := by simpa using h2
  exact h3.1

theorem under_self {p : Path} (h : pathUnder p p) : False := by
  obtain ⟨r, hr, hne⟩ := h
  have h1 : p ++ [] = p ++ r := by simpa using hr
  have h2 := List.append_cancel_left h1
  exact hne h2.symm

mutual
theorem filePathsT_shape : ∀ (p : Path) (t : FSTree) (q : Path),
    q ∈ filePathsT p t → pathUnder p q
  | p, .file n, q, h => by
    simp [filePathsT] at h
    exact ⟨[n], by simp [h], by simp⟩
  | p, .dir n cs, q, h => by
    simp only [filePathsT] at h
    exact under_extend (filePathsF_shape (p ++ [n]) cs q h)
theorem filePathsF_shape : ∀ (p : Path) (cs : FSForest) (q : Path),
    q ∈ filePathsF p cs → pathUnder p q
  | p, .cons t ts, q, h => by
    simp only [filePathsF, List.mem_append] at h
    cases h with
    | inl h => exact filePathsT_shape p t q h
    | inr h => exact filePathsF_shape p ts q h
end

mutual
theorem dirPathsT_shape : ∀ (p : Path) (t : FSTree) (q : Path),
    q ∈ dirPathsT p t → pathUnder p q
  | p, .dir n cs, q, h => by
    simp only [dirPathsT, List.mem_cons] at h
    cases h with
    | inl h => exact h ▸ under_trivial p n
    | inr h => exact under_extend (dirPathsF_shape (p ++ [n]) cs q h)
theorem dirPathsF_shape : ∀ (p : Path) (cs : FSForest) (q : Path),
    q ∈ dirPathsF p cs → pathUnder p q
  | p, .cons t ts, q, h => by
    simp only [dirPathsF, List.mem_append] at h
    cases h with
    | inl h => exact dirPathsT_shape p t q h
    | inr h => exact dirPathsF_shape p ts q h
end

theorem memDir_name : ∀ (cs : FSForest) {n : String} {gs : FSForest},
    memDir n gs cs → n ∈ childNames cs
  | .cons t ts, n, gs, h => by
    cases h with
    | inl h => simp [childNames, h, nameOf]
    | inr h => simp [childNames, memDir_name ts h]

theorem memDir_wf : ∀ (cs : FSForest) {n : String} {gs : FSForest},
    wfF cs = true → memDir n gs cs → wfF gs = true
  | .cons t ts, n, gs, hwf, h => by
    simp only [wfF, Bool.and_eq_true] at hwf
    cases h with
    | inl h => subst h; exact hwf.1.2
    | inr h => exact memDir_wf ts hwf.2 h

theorem memDir_unique : ∀ (cs : FSForest) {n : String} {gs hs : FSForest},
    wfF cs = true → memDir n gs cs → memDir n hs cs → gs = hs
  | .cons t ts, n, gs, hs, hwf, h1, h2 => by
    simp only [wfF, Bool.and_eq_true, Bool.not_eq_true'] at hwf
    cases h1 with
    | inl h1 =>
      cases h2 with
      | inl h2 =>
        have h3 := h1.symm.trans h2
        injection h3
      | inr h2 =>
        exfalso
        have hn := memDir_name ts h2
        rw [h1] at hwf
        simp only [nameOf] at hwf
        have h3 := hwf.1.1
        simp at h3
        exact h3 hn
    | inr h1 =>
      cases h2 with
      | inl h2 =>
        exfalso
        have hn := memDir_name ts h1
        rw [h2] at hwf
        simp only [nameOf] at hwf
        have h3 := hwf.1.1
        simp at h3
        exact h3 hn
      | inr h2 => exact memDir_unique ts hwf.2 h1 h2

theorem memDir_filePaths_sub : ∀ (cs : FSForest) (p : Path) {n : String} {gs : FSForest},
    memDir n gs cs → ∀ q ∈ filePathsF (p ++ [n]) gs, q ∈ filePathsF p cs
  | .cons t ts, p, n, gs, h, q, hq => by
    simp only [filePathsF, List.mem_append]
    cases h with
    | inl h => subst h; exact Or.inl (by simpa [filePathsT] using hq)
    | inr h => exact Or.inr (memDir_filePaths_sub ts p h q hq)

theorem memDir_dirPath_mem : ∀ (cs : FSForest) (p : Path) {n : String} {gs : FSForest},
    memDir n gs cs → p ++ [n] ∈ dirPathsF p cs
  | .cons t ts, p, n, gs, h => by
    simp only [dirPathsF, List.mem_append]
    cases h with
    | inl h => subst h; exact Or.inl (by simp [dirPathsT])
    | inr h => exact Or.inr (memDir_dirPath_mem ts p h)

theorem memDir_dirPaths_sub : ∀ (cs : FSForest) (p : Path) {n : String} {gs : FSForest},
    memDir n gs cs → ∀ q ∈ dirPathsF (p ++ [n]) gs, q ∈ dirPathsF p cs
  | .cons t ts, p, n, gs, h, q, hq => by
    simp only [dirPathsF, List.mem_append]
    cases h with
    | inl h => subst h; exact Or.inl (by simp [dirPathsT, hq])
    | inr h => exact Or.inr (memDir_dirPaths_sub ts p h q hq)

theorem childFiles_path_mem : ∀ (cs : FSForest) (p : Path) {f : String},
    f ∈ childFiles cs → p ++ [f] ∈ filePathsF p cs
  | .cons (.file m) ts, p, f, h => by
    simp only [childFiles, List.mem_cons] at h
    simp only [filePathsF, filePathsT, List.mem_append, List.mem_singleton]
    cases h with
    | inl h => exact Or.inl (by simp [h])
    | inr h => exact Or.inr (childFiles_path_mem ts p h)
  | .cons (.dir m gs) ts, p, f, h => by
    simp only [childFiles] at h
    simp only [filePathsF, List.mem_append]
    exact Or.inr (childFiles_path_mem ts p h)

theorem childDirs_memDir : ∀ (cs : FSForest) {n : String},
    n ∈ childDirs cs → ∃ gs, memDir n gs cs
  | .cons (.file m) ts, n, h => by
    simp only [childDirs] at h
    obtain ⟨gs, hgs⟩ := childDirs_memDir ts h
    exact ⟨gs, Or.inr hgs⟩
  | .cons (.dir m gs) ts, n, h => by
    simp only [childDirs, List.mem_cons] at h
    cases h with
    | inl h => exact ⟨gs, Or.inl (by simp [h])⟩
    | inr h =>
      obtain ⟨hs, hhs⟩ := childDirs_memDir ts h
      exact ⟨hs, Or.inr hhs⟩

theorem filePathsF_split : ∀ (cs : FSForest) (p : Path) (q : Path),
    q ∈ filePathsF p cs →
    (∃ f ∈ childFiles cs, q = p ++ [f]) ∨
    (∃ n gs, memDir n gs cs ∧ q ∈ filePathsF (p ++ [n]) gs)
  | .cons (.file m) ts, p, q, h => by
    simp only [filePathsF, filePathsT, List.mem_append, List.mem_singleton] at h
    cases h with
    | inl h => exact Or.inl ⟨m, by simp [childFiles], h⟩
    | inr h =>
      cases filePathsF_split ts p q h with
      | inl h2 =>
        obtain ⟨f, hf, hq⟩ := h2
        exact Or.inl ⟨f, by simp [childFiles, hf], hq⟩
      | inr h2 =>
        obtain ⟨n, gs, hm, hq⟩ := h2
        exact Or.inr ⟨n, gs, Or.inr hm, hq⟩
  | .cons (.dir m hs) ts, p, q, h => by
    simp only [filePathsF, filePathsT, List.mem_append] at h
    cases h with
    | inl h => exact Or.inr ⟨m, hs, Or.inl rfl, h⟩
    | inr h =>
      cases filePathsF_split ts p q h with
      | inl h2 =>
        obtain ⟨f, hf, hq⟩ := h2
        exact Or.inl ⟨f, by simp [childFiles, hf], hq⟩
      | inr h2 =>
        obtain ⟨n, gs, hm, hq⟩ := h2
        exact Or.inr ⟨n, gs, Or.inr hm, hq⟩

theorem dirPathsF_split : ∀ (cs : FSForest) (p : Path) (q : Path),
    q ∈ dirPathsF p cs →
    ∃ n gs, memDir n gs cs ∧ (q = p ++ [n] ∨ q ∈ dirPathsF (p ++ [n]) gs)
  | .cons (.file m) ts, p, q, h => by
    simp only [dirPathsF, dirPathsT, List.nil_append] at h
    obtain ⟨n, gs, hm, hq⟩ := dirPathsF_split ts p q h
    exact ⟨n, gs, Or.inr hm, hq⟩
  | .cons (.dir m hs) ts, p, q, h => by
    simp only [dirPathsF, dirPathsT, List.cons_append, List.mem_cons, List.mem_append] at h
    cases h with
    | inl h => exact ⟨m, hs, Or.inl rfl, Or.inl h⟩
    | inr h =>
      cases h with
      | inl h => exact ⟨m, hs, Or.inl rfl, Or.inr h⟩
      | inr h =>
        obtain ⟨n, gs, hm, hq⟩ := dirPathsF_split ts p q h
        exact ⟨n, gs, Or.inr hm, hq⟩

theorem remFilesF_sub : ∀ (cs : FSForest) (p : Path) (q : Path),
    q ∈ remFilesF p cs → q ∈ filePathsF p cs
  | .cons (.file m) ts, p, q, h => by
    simp only [remFilesF] at h
    simp only [filePathsF, List.mem_append]
    exact Or.inr (remFilesF_sub ts p q h)
  | .cons (.dir m hs) ts, p, q, h => by
    simp only [remFilesF, List.mem_append] at h
    simp only [filePathsF, filePathsT, List.mem_append]
    cases h with
    | inl h => exact Or.inl h
    | inr h => exact Or.inr (remFilesF_sub ts p q h)

theorem remDirsF_sub : ∀ (cs : FSForest) (p : Path) (q : Path),
    q ∈ remDirsF p cs → q ∈ dirPathsF p cs
  | .cons (.file m) ts, p, q, h => by
    simp only [remDirsF] at h
    simp only [dirPathsF, dirPathsT, List.nil_append]
    exact remDirsF_sub ts p q h
  | .cons (.dir m hs) ts, p, q, h => by
    simp only [remDirsF, List.mem_append] at h
    simp only [dirPathsF, dirPathsT, List.cons_append, List.mem_cons, List.mem_append]
    cases h with
    | inl h => exact Or.inr (Or.inl h)
    | inr h => exact Or.inr (Or.inr (remDirsF_sub ts p q h))

theorem remFilesF_shape : ∀ (cs : FSForest) (p : Path) (q : Path),
    q ∈ remFilesF p cs → ∃ n, n ∈ childDirs cs ∧ pathUnder (p ++ [n]) q
  | .cons (.file m) ts, p, q, h => by
    simp only [remFilesF] at h
    obtain ⟨n, hn, hu⟩ := remFilesF_shape ts p q h
    exact ⟨n, by simp [childDirs, hn], hu⟩
  | .cons (.dir m hs) ts, p, q, h => by
    simp only [remFilesF, List.mem_append] at h
    cases h with
    | inl h => exact ⟨m, by simp [childDirs], filePathsF_shape (p ++ [m]) hs q h⟩
    | inr h =>
      obtain ⟨n, hn, hu⟩ := remFilesF_shape ts p q h
      exact ⟨n, by simp [childDirs, hn], hu⟩

theorem remDirsF_shape : ∀ (cs : FSForest) (p : Path) (q : Path),
    q ∈ remDirsF p cs → ∃ n, n ∈ childDirs cs ∧ pathUnder (p ++ [n]) q
  | .cons (.file m) ts, p, q, h => by
    simp only [remDirsF] at h
    obtain ⟨n, hn, hu⟩ := remDirsF_shape ts p q h
    exact ⟨n, by simp [childDirs, hn], hu⟩
  | .cons (.dir m hs) ts, p, q, h => by
    simp only [remDirsF, List.mem_append] at h
    cases h with
    | inl h => exact ⟨m, by simp [childDirs], dirPathsF_shape (p ++ [m]) hs q h⟩
    | inr h =>
      obtain ⟨n, hn, hu⟩ := remDirsF_shape ts p q h
      exact ⟨n, by simp [childDirs, hn], hu⟩

theorem memDir_remFiles_sub : ∀ (cs : FSForest) (p : Path) {n : String} {gs : FSForest},
    memDir n gs cs → ∀ q ∈ filePathsF (p ++ [n]) gs, q ∈ remFilesF p cs
  | .cons (.file m) ts, p, n, gs, h, q, hq => by
    cases h with
    | inl h => exact absurd h (by simp)
    | inr h => simpa [remFilesF] using memDir_remFiles_sub ts p h q hq
  | .cons (.dir m hs) ts, p, n, gs, h, q, hq => by
    simp only [remFilesF, List.mem_append]
    cases h with
    | inl h =>
      injection h with h1 h2
      subst h1; subst h2
      exact Or.inl hq
    | inr h => exact Or.inr (memDir_remFiles_sub ts p h q hq)

theorem memDir_remDirs_sub : ∀ (cs : FSForest) (p : Path) {n : String} {gs : FSForest},
    memDir n gs cs → ∀ q ∈ dirPathsF (p ++ [n]) gs, q ∈ remDirsF p cs
  | .cons (.file m) ts, p, n, gs, h, q, hq => by
    cases h with
    | inl h => exact absurd h (by simp)
    | inr h => simpa [remDirsF] using memDir_remDirs_sub ts p h q hq
  | .cons (.dir m hs) ts, p, n, gs, h, q, hq => by
    simp only [remDirsF, List.mem_append]
    cases h with
    | inl h =>
      injection h with h1 h2
      subst h1; subst h2
      exact Or.inl hq
    | inr h => exact Or.inr (memDir_remDirs_sub ts p h q hq)

/-- Routing: a file path below a well-formed forest that lies under the
directory child named `n` lies in that child's subtree. -/
theorem filePathsF_route {cs : FSForest} (hwf : wfF cs = true) {p : Path}
    {n : String} {gs : FSForest} {q : Path} (hm : memDir n gs cs)
    (hq : q ∈ filePathsF p cs) (hu : pathUnder (p ++ [n]) q) :
    q ∈ filePathsF (p ++ [n]) gs := by
  cases filePathsF_split cs p q hq with
  | inl h =>
    obtain ⟨f, _, rfl⟩ := h
    exact absurd hu under_singleton
  | inr h =>
    obtain ⟨m, hs, hm', hq'⟩ := h
    have hu' := filePathsF_shape (p ++ [m]) hs q hq'
    have : n = m := under_same_parent hu hu'
    subst this
    have : gs = hs := memDir_unique cs hwf hm hm'
    subst this
    exact hq'

/-- Routing for directory paths. -/
theorem dirPathsF_route {cs : FSForest} (hwf : wfF cs = true) {p : Path}
    {n : String} {gs : FSForest} {q : Path} (hm : memDir n gs cs)
    (hq : q ∈ dirPathsF p cs) (hu : pathUnder (p ++ [n]) q) :
    q ∈ dirPathsF (p ++ [n]) gs := by
  obtain ⟨m, hs, hm', hq'⟩ := dirPathsF_split cs p q hq
  cases hq' with
  | inl h =>
    subst h
    exact absurd hu under_singleton
  | inr h =>
    have hu' := dirPathsF_shape (p ++ [m]) hs q h
    have : n = m := under_same_parent hu hu'
    subst this
    have : gs = hs := memDir_unique cs hwf hm hm'
    subst this
    exact h

theorem memDir_childDirs : ∀ (cs : FSForest) {n : String} {gs : FSForest},
    memDir n gs cs → n ∈ childDirs cs
  | .cons (.file m) ts, n, gs, h => by
    cases h with
    | inl h => exact absurd h (by simp)
    | inr h => simpa [childDirs] using memDir_childDirs ts h
  | .cons (.dir m hs) ts, n, gs, h => by
    simp only [childDirs, List.mem_cons]
    cases h with
    | inl h => injection h with h1 h2; exact Or.inl h1.symm
    | inr h => exact Or.inr (memDir_childDirs ts h)

/-- Nothing in the subtree of a forest can lie under a name that is not
among the forest's child names. -/
theorem notMem_names_files {ts : FSForest} {n : String} {p q : Path}
    (hn : n ∉ childNames ts) (hq : q ∈ filePathsF p ts)
    (hu : pathUnder (p ++ [n]) q) : False := by
  cases filePathsF_split ts p q hq with
  | inl h =>
    obtain ⟨f, _, rfl⟩ := h
    exact under_singleton hu
  | inr h =>
    obtain ⟨m, hs, hm, hq'⟩ := h
    have hu' := filePathsF_shape (p ++ [m]) hs q hq'
    have : n = m := under_same_parent hu hu'
    subst this
    exact hn (memDir_name ts hm)

theorem notMem_names_dirs {ts : FSForest} {n : String} {p q : Path}
    (hn : n ∉ childNames ts) (hq : q ∈ dirPathsF p ts)
    (hu : pathUnder (p ++ [n]) q) : False := by
  obtain ⟨m, hs, hm, hq'⟩ := dirPathsF_split ts p q hq
  cases hq' with
  | inl h =>
    subst h
    exact under_singleton hu
  | inr h =>
    have hu' := dirPathsF_shape (p ++ [m]) hs q h
    have : n = m := under_same_parent hu hu'
    subst this
    exact hn (memDir_name ts hm)

theorem childNames_of_childFiles : ∀ (cs : FSForest), List.Sublist (childFiles cs) (childNames cs)
  | .nil => List.Sublist.refl _
  | .cons (.file m) ts => by
    simp only [childFiles, childNames, nameOf]
    exact List.Sublist.cons₂ m (childNames_of_childFiles ts)
  | .cons (.dir m hs) ts => by
    simp only [childFiles, childNames, nameOf]
    exact List.Sublist.cons m (childNames_of_childFiles ts)

theorem childNames_of_childDirs : ∀ (cs : FSForest), List.Sublist (childDirs cs) (childNames cs)
  | .nil => List.Sublist.refl _
  | .cons (.file m) ts => by
    simp only [childDirs, childNames, nameOf]
    exact List.Sublist.cons m (childNames_of_childDirs ts)
  | .cons (.dir m hs) ts => by
    simp only [childDirs, childNames, nameOf]
    exact List.Sublist.cons₂ m (childNames_of_childDirs ts)

theorem wfF_names_nodup : ∀ (cs : FSForest), wfF cs = true → (childNames cs).Nodup
  | .nil, _ => by simp [childNames]
  | .cons t ts, hwf => by
    simp only [wfF, Bool.and_eq_true, Bool.not_eq_true'] at hwf
    simp only [childNames, List.nodup_cons]
    refine ⟨?_, wfF_names_nodup ts hwf.2⟩
    have h3 := hwf.1.1
    simp at h3
    exact h3

theorem wfF_childFiles_nodup {cs : FSForest} (hwf : wfF cs = true) :
    (childFiles cs).Nodup :=
  (wfF_names_nodup cs hwf).sublist (childNames_of_childFiles cs)

theorem wfF_childDirs_nodup {cs : FSForest} (hwf : wfF cs = true) :
    (childDirs cs).Nodup :=
  (wfF_names_nodup cs hwf).sublist (childNames_of_childDirs cs)

/-- Decomposition of all file paths below a directory into direct file
children and the files below directory children. -/
theorem filePaths_decomp (p : Path) (cs : FSForest) :
    (filePathsF p cs).toFinset =
      ((childFiles cs).map (fun f => p ++ [f])).toFinset ∪ (remFilesF p cs).toFinset := by
  ext q
  simp only [Finset.mem_union, List.mem_toFinset, List.mem_map]
  constructor
  · intro hq
    cases filePathsF_split cs p q hq with
    | inl h =>
      obtain ⟨f, hf, rfl⟩ := h
      exact Or.inl ⟨f, hf, rfl⟩
    | inr h =>
      obtain ⟨n, gs, hm, hq'⟩ := h
      exact Or.inr (memDir_remFiles_sub cs p hm q hq')
  · intro hq
    cases hq with
    | inl h =>
      obtain ⟨f, hf, rfl⟩ := h
      exact childFiles_path_mem cs p hf
    | inr h => exact remFilesF_sub cs p q h

/-- Decomposition of all directory paths below a directory into direct
subdirectory children and the directories below them. -/
theorem dirPaths_decomp (p : Path) (cs : FSForest) :
    (dirPathsF p cs).toFinset =
      ((childDirs cs).map (fun d => p ++ [d])).toFinset ∪ (remDirsF p cs).toFinset := by
  ext q
  simp only [Finset.mem_union, List.mem_toFinset, List.mem_map]
  constructor
  · intro hq
    obtain ⟨n, gs, hm, hq'⟩ := dirPathsF_split cs p q hq
    cases hq' with
    | inl h => exact Or.inl ⟨n, memDir_childDirs cs hm, h.symm⟩
    | inr h => exact Or.inr (memDir_remDirs_sub cs p hm q h)
  · intro hq
    cases hq with
    | inl h =>
      obtain ⟨d, hd, rfl⟩ := h
      obtain ⟨gs, hm⟩ := childDirs_memDir cs hd
      exact memDir_dirPath_mem cs p hm
    | inr h => exact remDirsF_sub cs p q h

theorem seg_inj {d : Path} {f g : String} (h : d ++ [f] = d ++ [g]) : f = g := by
  have h2 := List.append_cancel_left h
  simpa using h2

theorem erase_sdiff_insert (s a : Finset Path) (x : Path) :
    (s.erase x) \ a = s \ insert x a := by
  ext y
  simp only [Finset.mem_sdiff, Finset.mem_erase, Finset.mem_insert]
  tauto

theorem sdiff_sdiff_union (s a b : Finset Path) : (s \ a) \ b = s \ (a ∪ b) := by
  ext y
  simp only [Finset.mem_sdiff, Finset.mem_union]
  tauto

/-- Fault-free file-removal loop over distinct sibling names that all
exist: it succeeds and removes exactly those file paths. -/
theorem removeFilesLoop_ok : ∀ (fnames : List String) (d : Path) (s : CleanupSt),
    fnames.Nodup → (∀ f ∈ fnames, d ++ [f] ∈ s.fs.files) →
    ∃ nm lg, removeFilesLoop faults0 d fnames s =
      (⟨⟨s.fs.files \ (fnames.map (fun f => d ++ [f])).toFinset, s.fs.dirs⟩, nm, lg⟩, none)
  | [], d, s, _, _ => ⟨s.name, s.log, by simp [removeFilesLoop]⟩
  | f :: rest, d, s, hnd, hmem => by
    simp only [List.nodup_cons] at hnd
    have hf : d ++ [f] ∈ s.fs.files := hmem f (by simp)
    have hstep : removeFilesLoop faults0 d (f :: rest) s =
        removeFilesLoop faults0 d rest
          ⟨⟨s.fs.files.erase (d ++ [f]), s.fs.dirs⟩, f,
            s.log ++ [(LogLevel.debug, LogMsg.text ("Removing file " ++ f))]⟩ := by
      simp [removeFilesLoop, os_remove, faults0, hf]
    obtain ⟨nm, lg, hrec⟩ := removeFilesLoop_ok rest d
      ⟨⟨s.fs.files.erase (d ++ [f]), s.fs.dirs⟩, f,
        s.log ++ [(LogLevel.debug, LogMsg.text ("Removing file " ++ f))]⟩
      hnd.2
      (by
        intro g hg
        simp only [Finset.mem_erase]
        refine ⟨?_, hmem g (by simp [hg])⟩
        intro hEq
        exact hnd.1 (seg_inj hEq ▸ hg))
    refine ⟨nm, lg, ?_⟩
    rw [hstep, hrec]
    have hset : s.fs.files.erase (d ++ [f]) \ (rest.map (fun g => d ++ [g])).toFinset =
        s.fs.files \ ((f :: rest).map (fun g => d ++ [g])).toFinset := by
      rw [List.map_cons, List.toFinset_cons, erase_sdiff_insert]
    rw [hset]

/-- Fault-free directory-removal loop over distinct sibling names that
all exist and have nothing left below them: it succeeds and removes
exactly those directory paths. -/
theorem removeDirsLoop_ok : ∀ (dnames : List String) (d : Path) (s : CleanupSt),
    dnames.Nodup → (∀ m ∈ dnames, d ++ [m] ∈ s.fs.dirs) →
    (∀ m ∈ dnames, ∀ q ∈ s.fs.files, ¬ pathUnder (d ++ [m]) q) →
    (∀ m ∈ dnames, ∀ q ∈ s.fs.dirs, ¬ pathUnder (d ++ [m]) q) →
    ∃ nm lg, removeDirsLoop faults0 d dnames s =
      (⟨⟨s.fs.files, s.fs.dirs \ (dnames.map (fun m => d ++ [m])).toFinset⟩, nm, lg⟩, none)
  | [], d, s, _, _, _, _ => ⟨s.name, s.log, by simp [removeDirsLoop]⟩
  | m :: rest, d, s, hnd, hmem, hef, hed => by
    simp only [List.nodup_cons] at hnd
    have hm : d ++ [m] ∈ s.fs.dirs := hmem m (by simp)
    have hemp : ¬ ((∃ q ∈ s.fs.files, pathUnder (d ++ [m]) q) ∨
        (∃ q ∈ s.fs.dirs, pathUnder (d ++ [m]) q)) := by
      rintro (⟨q, hq, hu⟩ | ⟨q, hq, hu⟩)
      · exact hef m (by simp) q hq hu
      · exact hed m (by simp) q hq hu
    have hstep : removeDirsLoop faults0 d (m :: rest) s =
        removeDirsLoop faults0 d rest
          ⟨⟨s.fs.files, s.fs.dirs.erase (d ++ [m])⟩, m,
            s.log ++ [(LogLevel.debug, LogMsg.text ("Removing sub directory " ++ m))]⟩ := by
      simp [removeDirsLoop, os_rmdir, faults0, hm, hemp]
    obtain ⟨nm, lg, hrec⟩ := removeDirsLoop_ok rest d
      ⟨⟨s.fs.files, s.fs.dirs.erase (d ++ [m])⟩, m,
        s.log ++ [(LogLevel.debug, LogMsg.text ("Removing sub directory " ++ m))]⟩
      hnd.2
      (by
        intro g hg
        simp only [Finset.mem_erase]
        refine ⟨?_, hmem g (by simp [hg])⟩
        intro hEq
        exact hnd.1 (seg_inj hEq ▸ hg))
      (by
        intro g hg q hq hu
        exact hef g (by simp [hg]) q hq hu)
      (by
        intro g hg q hq hu
        exact hed g (by simp [hg]) q (Finset.mem_of_mem_erase hq) hu)
    refine ⟨nm, lg, ?_⟩
    rw [hstep, hrec]
    have hset : s.fs.dirs.erase (d ++ [m]) \ (rest.map (fun g => d ++ [g])).toFinset =
        s.fs.dirs \ ((m :: rest).map (fun g => d ++ [g])).toFinset := by
      rw [List.map_cons, List.toFinset_cons, erase_sdiff_insert]
    rw [hset]

/-- Fault-free processing of one cleanup entry: remove the direct files,
then the (already emptied) subdirectories. -/
theorem runEntry_ok (d : Path) (dnames fnames : List String) (s : CleanupSt)
    (hndf : fnames.Nodup) (hndd : dnames.Nodup)
    (hfmem : ∀ f ∈ fnames, d ++ [f] ∈ s.fs.files)
    (hdmem : ∀ m ∈ dnames, d ++ [m] ∈ s.fs.dirs)
    (hef : ∀ m ∈ dnames, ∀ q ∈ s.fs.files, ¬ pathUnder (d ++ [m]) q)
    (hed : ∀ m ∈ dnames, ∀ q ∈ s.fs.dirs, ¬ pathUnder (d ++ [m]) q) :
    ∃ nm lg, runEntry faults0 ⟨d, dnames, fnames⟩ s =
      (⟨⟨s.fs.files \ (fnames.map (fun f => d ++ [f])).toFinset,
         s.fs.dirs \ (dnames.map (fun m => d ++ [m])).toFinset⟩, nm, lg⟩, none) := by
  obtain ⟨nm1, lg1, h1⟩ := removeFilesLoop_ok fnames d s hndf hfmem
  obtain ⟨nm2, lg2, h2⟩ := removeDirsLoop_ok dnames d
    ⟨⟨s.fs.files \ (fnames.map (fun f => d ++ [f])).toFinset, s.fs.dirs⟩, nm1, lg1⟩
    hndd hdmem
    (by
      intro m hm q hq hu
      exact hef m hm q (Finset.mem_sdiff.mp hq).1 hu)
    hed
  exact ⟨nm2, lg2, by simp only [runEntry, h1, h2]⟩

/-- Running a concatenation of entry lists either fails in the first part
or continues with the second from the intermediate state. -/
theorem runEntries_append (faults : Path → Bool) :
    ∀ (a b : List WalkEntry) (s : CleanupSt),
    runEntries faults (a ++ b) s =
      match runEntries faults a s with
      | (s', none) => runEntries faults b s'
      | (s', some e) => (s', some e)
  | [], b, s => by simp [runEntries]
  | e :: es, b, s => by
    simp only [List.cons_append, runEntries]
    cases h : runEntry faults e s with
    | mk s' r =>
      cases r with
      | none => simp [runEntries_append faults es b s']
      | some err => simp

/-- Main cleanup lemma: over a well-formed forest `cs` of children of the
directory at `p`, the fault-free bottom-up walk succeeds and removes
exactly the files and the directories lying below the directory children
of `cs` (the direct children themselves are handled by the parent's
entry, which is not part of `walkBUF p cs`). -/
theorem runEntries_walkBUF : ∀ (cs : FSForest) (p : Path) (s : CleanupSt),
    wfF cs = true →
    (∀ q ∈ filePathsF p cs, q ∈ s.fs.files) →
    (∀ q ∈ dirPathsF p cs, q ∈ s.fs.dirs) →
    (∀ q ∈ s.fs.files, ∀ n gs, memDir n gs cs → pathUnder (p ++ [n]) q →
      q ∈ filePathsF (p ++ [n]) gs) →
    (∀ q ∈ s.fs.dirs, ∀ n gs, memDir n gs cs → pathUnder (p ++ [n]) q →
      q ∈ dirPathsF (p ++ [n]) gs) →
    ∃ nm lg, runEntries faults0 (walkBUF p cs) s =
      (⟨⟨s.fs.files \ (remFilesF p cs).toFinset,
         s.fs.dirs \ (remDirsF p cs).toFinset⟩, nm, lg⟩, none)
  | .nil, p, s, _, _, _, _, _ =>
    ⟨s.name, s.log, by simp [walkBUF, runEntries, remFilesF, remDirsF]⟩
  | .cons (.file f) ts, p, s, hwf, h1, h2, h3, h4 => by
    have hwfts : wfF ts = true := by
      simp only [wfF, Bool.and_eq_true] at hwf
      exact hwf.2
    have hlist : walkBUF p (.cons (.file f) ts) = walkBUF p ts := by
      simp [walkBUF, walkBUT]
    obtain ⟨nm, lg, hrec⟩ := runEntries_walkBUF ts p s hwfts
      (by
        intro q hq
        exact h1 q (by simp [filePathsF, List.mem_append, hq]))
      (by
        intro q hq
        exact h2 q (by simp [dirPathsF, dirPathsT, hq]))
      (by
        intro q hq n gs hm hu
        exact h3 q hq n gs (Or.inr hm) hu)
      (by
        intro q hq n gs hm hu
        exact h4 q hq n gs (Or.inr hm) hu)
    exact ⟨nm, lg, by rw [hlist, hrec]; simp [remFilesF, remDirsF]⟩
  | .cons (.dir n gs) ts, p, s, hwf, h1, h2, h3, h4 => by
    simp only [wfF, wfT, nameOf, Bool.and_eq_true, Bool.not_eq_true'] at hwf
    have hnotin : n ∉ childNames ts := by
      have h0 := hwf.1.1
      simp at h0
      exact h0
    have hwfgs : wfF gs = true := hwf.1.2
    have hwfts : wfF ts = true := hwf.2
    have hmemHead : memDir n gs (FSForest.cons (.dir n gs) ts) := Or.inl rfl
    -- Step A: the walk of the subtree below the child directory p ++ [n]
    obtain ⟨nm1, lg1, hA⟩ := runEntries_walkBUF gs (p ++ [n]) s hwfgs
      (by
        intro q hq
        exact h1 q (memDir_filePaths_sub _ p hmemHead q hq))
      (by
        intro q hq
        exact h2 q (memDir_dirPaths_sub _ p hmemHead q hq))
      (by
        intro q hq m hs hm hu
        have hu' : pathUnder (p ++ [n]) q := under_extend hu
        have hq' : q ∈ filePathsF (p ++ [n]) gs := h3 q hq n gs hmemHead hu'
        exact filePathsF_route hwfgs hm hq' hu)
      (by
        intro q hq m hs hm hu
        have hu' : pathUnder (p ++ [n]) q := under_extend hu
        have hq' : q ∈ dirPathsF (p ++ [n]) gs := h4 q hq n gs hmemHead hu'
        exact dirPathsF_route hwfgs hm hq' hu)
    -- Step B: the entry of the child directory itself
    obtain ⟨nm2, lg2, hB⟩ := runEntry_ok (p ++ [n]) (childDirs gs) (childFiles gs)
      ⟨⟨s.fs.files \ (remFilesF (p ++ [n]) gs).toFinset,
        s.fs.dirs \ (remDirsF (p ++ [n]) gs).toFinset⟩, nm1, lg1⟩
      (wfF_childFiles_nodup hwfgs) (wfF_childDirs_nodup hwfgs)
      (by
        intro f hf
        simp only [Finset.mem_sdiff, List.mem_toFinset]
        constructor
        · exact h1 _ (memDir_filePaths_sub _ p hmemHead _
            (childFiles_path_mem gs (p ++ [n]) hf))
        · intro hbad
          obtain ⟨m, _, hu⟩ := remFilesF_shape gs (p ++ [n]) _ hbad
          exact under_singleton hu)
      (by
        intro m hm
        simp only [Finset.mem_sdiff, List.mem_toFinset]
        constructor
        · obtain ⟨hs, hmm⟩ := childDirs_memDir gs hm
          exact h2 _ (memDir_dirPaths_sub _ p hmemHead _
            (memDir_dirPath_mem gs (p ++ [n]) hmm))
        · intro hbad
          obtain ⟨m', _, hu⟩ := remDirsF_shape gs (p ++ [n]) _ hbad
          exact under_singleton hu)
      (by
        intro m hm q hq hu
        simp only [Finset.mem_sdiff, List.mem_toFinset] at hq
        obtain ⟨hs, hmm⟩ := childDirs_memDir gs hm
        have hu' : pathUnder (p ++ [n]) q := under_extend hu
        have hq' : q ∈ filePathsF (p ++ [n]) gs := h3 q hq.1 n gs hmemHead hu'
        have : q ∈ filePathsF (p ++ [n] ++ [m]) hs := filePathsF_route hwfgs hmm hq' hu
        exact hq.2 (memDir_remFiles_sub gs (p ++ [n]) hmm q this))
      (by
        intro m hm q hq hu
        simp only [Finset.mem_sdiff, List.mem_toFinset] at hq
        obtain ⟨hs, hmm⟩ := childDirs_memDir gs hm
        have hu' : pathUnder (p ++ [n]) q := under_extend hu
        have hq' : q ∈ dirPathsF (p ++ [n]) gs := h4 q hq.1 n gs hmemHead hu'
        have : q ∈ dirPathsF (p ++ [n] ++ [m]) hs := dirPathsF_route hwfgs hmm hq' hu
        exact hq.2 (memDir_remDirs_sub gs (p ++ [n]) hmm q this))
    -- the state after Step B, rewritten to subtracting the whole subtree
    have hfiles2 : (s.fs.files \ (remFilesF (p ++ [n]) gs).toFinset) \
        ((childFiles gs).map (fun f => p ++ [n] ++ [f])).toFinset =
        s.fs.files \ (filePathsF (p ++ [n]) gs).toFinset := by
      rw [sdiff_sdiff_union, filePaths_decomp (p ++ [n]) gs, Finset.union_comm]
    have hdirs2 : (s.fs.dirs \ (remDirsF (p ++ [n]) gs).toFinset) \
        ((childDirs gs).map (fun m => p ++ [n] ++ [m])).toFinset =
        s.fs.dirs \ (dirPathsF (p ++ [n]) gs).toFinset := by
      rw [sdiff_sdiff_union, dirPaths_decomp (p ++ [n]) gs, Finset.union_comm]
    -- Step C: the walk of the remaining siblings
    obtain ⟨nm3, lg3, hC⟩ := runEntries_walkBUF ts p
      ⟨⟨s.fs.files \ (filePathsF (p ++ [n]) gs).toFinset,
        s.fs.dirs \ (dirPathsF (p ++ [n]) gs).toFinset⟩, nm2, lg2⟩ hwfts
      (by
        intro q hq
        simp only [Finset.mem_sdiff, List.mem_toFinset]
        refine ⟨h1 q (by simp [filePathsF, List.mem_append, hq]), ?_⟩
        intro hbad
        exact notMem_names_files hnotin hq (filePathsF_shape (p ++ [n]) gs q hbad))
      (by
        intro q hq
        simp only [Finset.mem_sdiff, List.mem_toFinset]
        refine ⟨h2 q (by simp [dirPathsF, dirPathsT, List.mem_append, hq]), ?_⟩
        intro hbad
        exact notMem_names_dirs hnotin hq (dirPathsF_shape (p ++ [n]) gs q hbad))
      (by
        intro q hq m hs hm hu
        simp only [Finset.mem_sdiff] at hq
        exact h3 q hq.1 m hs (Or.inr hm) hu)
      (by
        intro q hq m hs hm hu
        simp only [Finset.mem_sdiff] at hq
        exact h4 q hq.1 m hs (Or.inr hm) hu)
    -- assemble the three runs
    refine ⟨nm3, lg3, ?_⟩
    have hlist : walkBUF p (.cons (.dir n gs) ts) =
        walkBUF (p ++ [n]) gs ++
          ([⟨p ++ [n], childDirs gs, childFiles gs⟩] ++ walkBUF p ts) := by
      simp [walkBUF, walkBUT, List.append_assoc]
    rw [hlist, runEntries_append, hA]
    simp only [runEntries, List.singleton_append, List.cons_append, List.append_eq,
      List.nil_append, hB, hfiles2, hdirs2]
    rw [hC]
    have hfiles3 : (s.fs.files \ (filePathsF (p ++ [n]) gs).toFinset) \
        (remFilesF p ts).toFinset =
        s.fs.files \ (remFilesF p (.cons (.dir n gs) ts)).toFinset := by
      rw [sdiff_sdiff_union]
      simp [remFilesF, List.toFinset_append]
    have hdirs3 : (s.fs.dirs \ (dirPathsF (p ++ [n]) gs).toFinset) \
        (remDirsF p ts).toFinset =
        s.fs.dirs \ (remDirsF p (.cons (.dir n gs) ts)).toFinset := by
      rw [sdiff_sdiff_union]
      simp [remDirsF, List.toFinset_append]
    simp only [hfiles3, hdirs3]

theorem under_length {d q : Path} (h : pathUnder d q) : d.length < q.length := by
  obtain ⟨r, rfl, hne⟩ := h
  have : 0 < r.length := List.length_pos.mpr hne
  simp [List.length_append]
  omega

theorem under_parent {p : Path} {n : String} (h : pathUnder (p ++ [n]) p) : False := by
  have := under_length h
  simp [List.length_append] at this

theorem insert_sdiff_self_eq (a : Path) (X : Finset Path) (ha : a ∉ X) :
    insert a X \ X = {a} := by
  ext y
  simp only [Finset.mem_sdiff, Finset.mem_insert, Finset.mem_singleton]
  constructor
  · rintro ⟨h1 | h1, h2⟩
    · exact h1
    · exact absurd h1 h2
  · rintro rfl
    exact ⟨Or.inl rfl, ha⟩

/-- Fault-free cleanup of the whole scratch directory: the bottom-up walk
succeeds and afterwards no file and no directory other than the scratch
root itself remains. -/
theorem cleanup_ok (cs : FSForest) (qname : String) (hwf : wfF cs = true) :
    ∃ nm lg, runEntries faults0 (osWalkBU tmpRoot cs) ⟨initFS cs, qname, []⟩ =
      (⟨⟨∅, {tmpRoot}⟩, nm, lg⟩, none) := by
  have hrootnotin : tmpRoot ∉ (dirPathsF tmpRoot cs).toFinset := by
    simp only [List.mem_toFinset]
    intro hbad
    exact under_self (dirPathsF_shape tmpRoot cs tmpRoot hbad)
  obtain ⟨nm1, lg1, hA⟩ := runEntries_walkBUF cs tmpRoot ⟨initFS cs, qname, []⟩ hwf
    (by
      intro q hq
      simpa [initFS] using hq)
    (by
      intro q hq
      simp [initFS, List.mem_toFinset, hq])
    (by
      intro q hq n gs hm hu
      simp only [initFS, List.mem_toFinset] at hq
      exact filePathsF_route hwf hm hq hu)
    (by
      intro q hq n gs hm hu
      simp only [initFS, Finset.mem_insert, List.mem_toFinset] at hq
      cases hq with
      | inl h => exact absurd (h ▸ hu) under_parent
      | inr h => exact dirPathsF_route hwf hm h hu)
  obtain ⟨nm2, lg2, hB⟩ := runEntry_ok tmpRoot (childDirs cs) (childFiles cs)
    ⟨⟨(initFS cs).files \ (remFilesF tmpRoot cs).toFinset,
      (initFS cs).dirs \ (remDirsF tmpRoot cs).toFinset⟩, nm1, lg1⟩
    (wfF_childFiles_nodup hwf) (wfF_childDirs_nodup hwf)
    (by
      intro f hf
      simp only [initFS, Finset.mem_sdiff, List.mem_toFinset]
      refine ⟨childFiles_path_mem cs tmpRoot hf, ?_⟩
      intro hbad
      obtain ⟨m, _, hu⟩ := remFilesF_shape cs tmpRoot _ hbad
      exact under_singleton hu)
    (by
      intro m hm
      simp only [initFS, Finset.mem_sdiff, Finset.mem_insert, List.mem_toFinset]
      obtain ⟨hs, hmm⟩ := childDirs_memDir cs hm
      refine ⟨Or.inr (memDir_dirPath_mem cs tmpRoot hmm), ?_⟩
      intro hbad
      obtain ⟨m', _, hu⟩ := remDirsF_shape cs tmpRoot _ hbad
      exact under_singleton hu)
    (by
      intro m hm q hq hu
      simp only [initFS, Finset.mem_sdiff, List.mem_toFinset] at hq
      obtain ⟨hs, hmm⟩ := childDirs_memDir cs hm
      have : q ∈ filePathsF (tmpRoot ++ [m]) hs := filePathsF_route hwf hmm hq.1 hu
      exact hq.2 (memDir_remFiles_sub cs tmpRoot hmm q this))
    (by
      intro m hm q hq hu
      simp only [initFS, Finset.mem_sdiff, Finset.mem_insert, List.mem_toFinset] at hq
      obtain ⟨hs, hmm⟩ := childDirs_memDir cs hm
      cases hq.1 with
      | inl h => exact absurd (h ▸ hu) under_parent
      | inr h =>
        have : q ∈ dirPathsF (tmpRoot ++ [m]) hs := dirPathsF_route hwf hmm h hu
        exact hq.2 (memDir_remDirs_sub cs tmpRoot hmm q this))
  have hfilesFinal : ((initFS cs).files \ (remFilesF tmpRoot cs).toFinset) \
      ((childFiles cs).map (fun f => tmpRoot ++ [f])).toFinset = (∅ : Finset Path) := by
    rw [sdiff_sdiff_union, Finset.union_comm, ← filePaths_decomp tmpRoot cs]
    simp [initFS]
  have hdirsFinal : ((initFS cs).dirs \ (remDirsF tmpRoot cs).toFinset) \
      ((childDirs cs).map (fun m => tmpRoot ++ [m])).toFinset = ({tmpRoot} : Finset Path) := by
    rw [sdiff_sdiff_union, Finset.union_comm, ← dirPaths_decomp tmpRoot cs]
    simp only [initFS]
    exact insert_sdiff_self_eq tmpRoot _ hrootnotin
  refine ⟨nm2, lg2, ?_⟩
  rw [osWalkBU, runEntries_append, hA]
  simp only [runEntries, hB, hfilesFinal, hdirsFinal]

/-- Row count of the table a path parses to, or `0` when parsing fails. -/
def okRowCount (readCSV : Path → Except String DataFrame) (q : Path) : Nat :=
  match readCSV q with
  | .ok df => df.rows.length
  | .error _ => 0

theorem enumFiles_append : ∀ (a b : List WalkEntry),
    enumFiles (a ++ b) = enumFiles a ++ enumFiles b
  | [], b => by simp [enumFiles]
  | e :: es, b => by
    simp [enumFiles, enumFiles_append es b]

/-- All file paths below a directory are a permutation of the direct file
children followed by the files below directory children. -/
theorem filePaths_perm : ∀ (cs : FSForest) (p : Path),
    List.Perm (filePathsF p cs)
      ((childFiles cs).map (fun f => p ++ [f]) ++ remFilesF p cs)
  | .nil, p => by simp [filePathsF, childFiles, remFilesF]
  | .cons (.file f) ts, p => by
    simp only [filePathsF, filePathsT, childFiles, remFilesF, List.map_cons,
      List.cons_append, List.singleton_append]
    exact (filePaths_perm ts p).cons (p ++ [f])
  | .cons (.dir n gs) ts, p => by
    simp only [filePathsF, filePathsT, childFiles, remFilesF]
    have hIH := filePaths_perm ts p
    have h1 : List.Perm (filePathsF (p ++ [n]) gs ++ filePathsF p ts)
        (filePathsF (p ++ [n]) gs ++ ((childFiles ts).map (fun f => p ++ [f]) ++ remFilesF p ts)) :=
      hIH.append_left _
    refine h1.trans ?_
    rw [← List.append_assoc, ← List.append_assoc]
    exact (List.perm_append_comm.append_right _)

/-- The file paths the top-down walk of a forest visits are a permutation
of the files below its directory children. -/
theorem enumFiles_walkTDF : ∀ (cs : FSForest) (p : Path),
    List.Perm (enumFiles (walkTDF p cs)) (remFilesF p cs)
  | .nil, p => by simp [walkTDF, enumFiles, remFilesF]
  | .cons (.file f) ts, p => by
    simp only [walkTDF, walkTDT, List.nil_append, remFilesF]
    exact enumFiles_walkTDF ts p
  | .cons (.dir n gs) ts, p => by
    have hsplit : walkTDF p (.cons (.dir n gs) ts) =
        (⟨p ++ [n], childDirs gs, childFiles gs⟩ :: walkTDF (p ++ [n]) gs) ++ walkTDF p ts := by
      simp [walkTDF, walkTDT]
    rw [hsplit, enumFiles_append]
    simp only [enumFiles, remFilesF]
    have hgs : List.Perm
        ((childFiles gs).map (fun f => p ++ [n] ++ [f]) ++ enumFiles (walkTDF (p ++ [n]) gs))
        (filePathsF (p ++ [n]) gs) := by
      refine (((enumFiles_walkTDF gs (p ++ [n])).append_left _).trans ?_)
      exact (filePaths_perm gs (p ++ [n])).symm
    exact (hgs.append (enumFiles_walkTDF ts p))

/-- The file paths visited by the full top-down walk of the scratch tree
are a permutation of all file paths below it. -/
theorem enumFiles_osWalkTD (cs : FSForest) (p : Path) :
    List.Perm (enumFiles (osWalkTD p cs)) (filePathsF p cs) := by
  simp only [osWalkTD, enumFiles]
  exact (((enumFiles_walkTDF cs p).append_left _).trans (filePaths_perm cs p).symm)

/-- When every file of the loop ends in `.csv` and parses, the reading
loop returns one table per file, in order. -/
theorem readFilesLoop_all (readCSV : Path → Except String DataFrame) (root : Path) :
    ∀ (files : List String),
    (∀ f ∈ files, pyEndsWith f ".csv" = true) →
    (∀ f ∈ files, ∃ df, readCSV (root ++ [f]) = .ok df) →
    (readFilesLoop readCSV root files).1.map (fun d => d.rows.length) =
      files.map (fun f => okRowCount readCSV (root ++ [f]))
  | [], _, _ => by simp [readFilesLoop]
  | f :: rest, hcsv, hok => by
    obtain ⟨df, hdf⟩ := hok f (by simp)
    have hrec := readFilesLoop_all readCSV root rest
      (fun g hg => hcsv g (by simp [hg])) (fun g hg => hok g (by simp [hg]))
    simp only [readFilesLoop, hcsv f (by simp), if_true, hdf, List.map_cons]
    refine congrArg₂ _ ?_ hrec
    simp [okRowCount, hdf]

/-- When every file of every entry ends in `.csv` and parses, the reading
phase returns one table per visited path, in order. -/
theorem readPhase_all (readCSV : Path → Except String DataFrame) :
    ∀ (entries : List WalkEntry),
    (∀ e ∈ entries, ∀ f ∈ e.files, pyEndsWith f ".csv" = true) →
    (∀ e ∈ entries, ∀ f ∈ e.files, ∃ df, readCSV (e.root ++ [f]) = .ok df) →
    (readPhase readCSV entries).1.map (fun d => d.rows.length) =
      (enumFiles entries).map (okRowCount readCSV)
  | [], _, _ => by simp [readPhase, enumFiles]
  | e :: es, hcsv, hok => by
    have h1 := readFilesLoop_all readCSV e.root e.files
      (hcsv e (by simp)) (hok e (by simp))
    have h2 := readPhase_all readCSV es
      (fun e' he' => hcsv e' (by simp [he'])) (fun e' he' => hok e' (by simp [he']))
    simp only [readPhase, enumFiles, List.map_append, h1, h2, List.map_map]
    rfl

/-- Row-wise concatenation of a non-empty table list succeeds, with row
count the sum of the row counts. -/
theorem pd_concat_rows (d : DataFrame) (ds : List DataFrame) :
    ∃ df, pd_concat (d :: ds) = .ok df ∧
      df.rows.length = (((d :: ds).map (fun x => x.rows.length)).sum) := by
  refine ⟨_, rfl, ?_⟩
  show (d.rows ++ (ds.map DataFrame.rows).flatten).length =
    ((d :: ds).map (fun x => x.rows.length)).sum
  rw [List.length_append, List.length_flatten, List.map_map, List.map_cons, List.sum_cons]
  rfl

/-- The parse attempt succeeded. -/
def isOkB : Except String DataFrame → Bool
  | .ok _ => true
  | .error _ => false

theorem isOkB_iff (r : Except String DataFrame) :
    isOkB r = true ↔ ∃ df, r = .ok df := by
  cases r with
  | ok df => simp [isOkB]
  | error e => simp [isOkB]

/-- Modelled from the spec: the display name the spec claims, the source
filename "without the final extension" (everything after the last dot
stripped; unchanged when the name has no dot). -/
def stripLastExt (s : String) : String :=
  if s.toList.contains '.' then
    String.mk (((s.toList.reverse.dropWhile (fun c => c ≠ '.')).drop 1).reverse)
  else s

/-- Recognizes the per-file parse-failure message of the loaders. -/
def errLogP : LogEntry → Bool
  | (.error, .text s) => pyStartsWith s "Unable to convert file to dataframe: "
  | _ => false

theorem isPrefixOf_append_self : ∀ (l t : List Char), l.isPrefixOf (l ++ t) = true
  | [], _ => by simp [List.isPrefixOf]
  | c :: cs, t => by simp [List.isPrefixOf, isPrefixOf_append_self cs t]

theorem pyStartsWith_append (a b : String) : pyStartsWith (a ++ b) a = true := by
  simp only [pyStartsWith]
  have hdata : (a ++ b).toList = a.toList ++ b.toList := by
    simp [String.toList, String.data_append]
  rw [hdata]
  exact isPrefixOf_append_self a.toList b.toList

/-- What `_set_initial_data` appends to the dataset registry: one entry
per successfully parsed file, named by `file.split('.')[0]`, in listing
order. -/
theorem set_initial_data_datasets (readCSV : Path → Except String DataFrame) :
    ∀ (files : List String) (st : GuiState),
    (set_initial_data readCSV files st).datasets = st.datasets ++
      files.filterMap (fun f =>
        match readCSV (dataRoot ++ [f]) with
        | .ok df => some (pySplitDotHead f, df)
        | .error _ => none)
  | [], st => by simp [set_initial_data]
  | f :: rest, st => by
    cases h : readCSV (dataRoot ++ [f]) with
    | ok df =>
      simp only [set_initial_data, h, List.filterMap_cons]
      rw [set_initial_data_datasets readCSV rest]
      simp [h]
    | error e =>
      simp only [set_initial_data, h, List.filterMap_cons]
      rw [set_initial_data_datasets readCSV rest]
      try simp [h]

theorem set_initial_data_chatBox (readCSV : Path → Except String DataFrame) :
    ∀ (files : List String) (st : GuiState),
    (set_initial_data readCSV files st).chatBox = st.chatBox
  | [], st => rfl
  | f :: rest, st => by
    cases h : readCSV (dataRoot ++ [f]) with
    | ok df => simp only [set_initial_data, h]; rw [set_initial_data_chatBox readCSV rest]
    | error e => simp only [set_initial_data, h]; rw [set_initial_data_chatBox readCSV rest]

theorem set_initial_data_counts (readCSV : Path → Except String DataFrame) :
    ∀ (files : List String) (st : GuiState),
    (set_initial_data readCSV files st).datasets.length =
      st.datasets.length + files.countP (fun f => isOkB (readCSV (dataRoot ++ [f]))) ∧
    (set_initial_data readCSV files st).log.countP errLogP =
      st.log.countP errLogP + files.countP (fun f => !(isOkB (readCSV (dataRoot ++ [f]))))
  | [], st => by simp [set_initial_data]
  | f :: rest, st => by
    cases h : readCSV (dataRoot ++ [f]) with
    | ok df =>
      have hIH := set_initial_data_counts readCSV rest
        { st with datasets := st.datasets ++ [(pySplitDotHead f, df)] }
      simp only [set_initial_data, h]
      refine ⟨?_, ?_⟩
      · rw [hIH.1]
        simp [List.countP_cons, isOkB, h]
        try omega
      · rw [hIH.2]
        simp [List.countP_cons, isOkB, h]
        try omega
    | error e =>
      have hIH := set_initial_data_counts readCSV rest
        { st with log := st.log ++
            [(.error, .text ("Unable to convert file to dataframe: " ++ pathStr (dataRoot ++ [f]))),
             (.error, .exc e)] }
      simp only [set_initial_data, h]
      refine ⟨?_, ?_⟩
      · rw [hIH.1]
        simp [List.countP_cons, isOkB, h]
        try omega
      · rw [hIH.2]
        have hcnt : List.countP errLogP
            [((LogLevel.error : LogLevel), LogMsg.text ("Unable to convert file to dataframe: " ++ pathStr (dataRoot ++ [f]))),
             (LogLevel.error, LogMsg.exc e)] = 1 := by
          simp [List.countP_cons, errLogP, pyStartsWith_append]
        rw [List.countP_append, hcnt]
        simp [List.countP_cons, isOkB, h]
        try omega

theorem set_initial_data_log_mono (readCSV : Path → Except String DataFrame) :
    ∀ (files : List String) (st : GuiState) (x : LogEntry),
    x ∈ st.log → x ∈ (set_initial_data readCSV files st).log
  | [], st, x, hx => hx
  | f :: rest, st, x, hx => by
    cases h : readCSV (dataRoot ++ [f]) with
    | ok df =>
      simp only [set_initial_data, h]
      exact set_initial_data_log_mono readCSV rest _ x hx
    | error e =>
      simp only [set_initial_data, h]
      exact set_initial_data_log_mono readCSV rest _ x (by simp [hx])

theorem set_initial_data_err_mem (readCSV : Path → Except String DataFrame) :
    ∀ (files : List String) (st : GuiState) (f : String),
    f ∈ files → isOkB (readCSV (dataRoot ++ [f])) = false →
    (LogLevel.error,
      LogMsg.text ("Unable to convert file to dataframe: " ++ pathStr (dataRoot ++ [f]))) ∈
      (set_initial_data readCSV files st).log
  | g :: rest, st, f, hf, hbad => by
    cases hgf : decide (f = g) with
    | true =>
      have hfg : f = g := of_decide_eq_true hgf
      subst hfg
      cases h : readCSV (dataRoot ++ [f]) with
      | ok df => simp [isOkB, h] at hbad
      | error e =>
        simp only [set_initial_data, h]
        exact set_initial_data_log_mono readCSV rest _ _ (by simp)
    | false =>
      have hfg : f ≠ g := of_decide_eq_false hgf
      have hf' : f ∈ rest := by
        cases hf with
        | head => exact absurd rfl hfg
        | tail _ h => exact h
      cases h : readCSV (dataRoot ++ [g]) with
      | ok df =>
        simp only [set_initial_data, h]
        exact set_initial_data_err_mem readCSV rest _ f hf' hbad
      | error e =>
        simp only [set_initial_data, h]
        exact set_initial_data_err_mem readCSV rest _ f hf' hbad

/-- Claim C9: on main-window close, the close handler invokes close on
each of the three collaborators — the import widget, the query widget and
the table widget — exactly once, and each of these calls happens before
the window's own close (the `super().closeEvent` call) completes. -/
theorem claim9_close_order :
    closeEvent.count CloseAction.closeImportWidget = 1 ∧
    closeEvent.count CloseAction.closeQueryWidget = 1 ∧
    closeEvent.count CloseAction.closeTableWidget = 1 ∧
    closeEvent.count CloseAction.superCloseEvent = 1 ∧
    closeEvent.indexOf CloseAction.closeImportWidget < closeEvent.indexOf CloseAction.superCloseEvent ∧
    closeEvent.indexOf CloseAction.closeQueryWidget < closeEvent.indexOf CloseAction.superCloseEvent ∧
    closeEvent.indexOf CloseAction.closeTableWidget < closeEvent.indexOf CloseAction.superCloseEvent := by
  decide

/-- Claim C10: on window construction, before any user action, the chat
log holds exactly one timestamped bot message, the greeting
"Bot: What type of movie would you like to watch?" — regardless of what
the startup data loader finds. -/
theorem claim10_initial_greeting (nowFull : String)
    (readCSV : Path → Except String DataFrame) (dataFiles : List String) :
    (recommender_init nowFull readCSV dataFiles).chatBox =
      ["[" ++ nowFull ++ "] Bot: What type of movie would you like to watch?"] := by
  have h : ("] " ++ botGreeting : String) =
      "] Bot: What type of movie would you like to watch?" := by decide
  simp [recommender_init, set_initial_data_chatBox]
  rw [String.append_assoc ("[" ++ nowFull) "] " botGreeting, h]

/-- Claim C3, counterexample: the input " " consists only of whitespace,
yet submitting it appends a line to the chat log — the handler only
checks Python truthiness (non-emptiness) of the string, so the claim's
"whitespace-only input appends nothing" is false as stated. -/
theorem claim3_counterexample :
    (" ").toList.all Char.isWhitespace = true ∧
    (user_chatted "01/01/2026 12:00:00"
        ⟨[], [], " ", []⟩).chatBox ≠ ([] : List String) := by
  decide

/-- Claim C3, amended: if the input string is empty, the chat handler
appends nothing; if it is non-empty — including whitespace-only input —
it appends exactly one timestamped "User: ..." line; the input field is
empty afterwards in either case. -/
theorem claim3_amended (nowFull : String) (st : GuiState) :
    ((user_chatted nowFull st).chatBox =
      if st.userInput = "" then st.chatBox
      else st.chatBox ++ ["[" ++ nowFull ++ "] User: " ++ st.userInput]) ∧
    (user_chatted nowFull st).userInput = "" := by
  by_cases h : st.userInput = ""
  · simp [user_chatted, h]
  · simp [user_chatted, h]

/-- Claim C2, counterexample: a startup file named "a.b.csv" that parses
successfully is registered under the name "a" (everything after the
first dot is cut by `file.split('.')[0]`), not under "a.b" as the
"final extension removed" claim states. -/
theorem claim2_counterexample :
    ((set_initial_data (fun _ => Except.ok ⟨[], []⟩) ["a.b.csv"]
        ⟨[], [], "", []⟩).datasets.map Prod.fst = ["a"]) ∧
    stripLastExt "a.b.csv" = "a.b" ∧ ("a" : String) ≠ "a.b" := by
  decide

/-- Claim C2, amended: for every file enumerated from the startup data
directory whose parse succeeds, the registered dataset's display name is
the source filename truncated at its first dot (so "a.b.csv" yields "a");
one dataset is appended per successfully parsed file, in listing order. -/
theorem claim2_amended (readCSV : Path → Except String DataFrame)
    (files : List String) (st : GuiState) :
    (set_initial_data readCSV files st).datasets = st.datasets ++
      files.filterMap (fun f =>
        match readCSV (dataRoot ++ [f]) with
        | .ok df => some (pySplitDotHead f, df)
        | .error _ => none) :=
  set_initial_data_datasets readCSV files st

/-- Claim C1: behaviour of the query-completion handler at the failing
input.  With result identifier "r" and one successfully parsed file
"a.csv" in the scratch directory, the registered dataset is named
"a.csv_12:00:00" — the cleanup loop variable shadows the `name`
parameter, so the last-seen directory-entry name is used instead of the
intended "r_12:00:00". -/
theorem claim1_shadowed_name_behavior :
    ((finish_query (fun _ => Except.ok ⟨["col"], [["x"]]⟩) faults0 "12:00:00"
        (.cons (.file "a.csv") .nil) "r" ⟨[], [], "", []⟩).gui.datasets.map Prod.fst
      = ["a.csv_12:00:00"]) ∧ ("a.csv_12:00:00" : String) ≠ "r_12:00:00" := by
  decide

/-- Claim C7: loading a startup directory registers one dataset per
successfully parsed file and, per failing file, logs the parse-failure
error with the failing path (and skips it without aborting the rest, so
the counts are exact over the whole listing). -/
theorem claim7_startup_counts (readCSV : Path → Except String DataFrame)
    (files : List String) (st : GuiState) :
    (set_initial_data readCSV files st).datasets.length =
      st.datasets.length + files.countP (fun f => isOkB (readCSV (dataRoot ++ [f]))) ∧
    (set_initial_data readCSV files st).log.countP errLogP =
      st.log.countP errLogP + files.countP (fun f => !(isOkB (readCSV (dataRoot ++ [f])))) ∧
    (∀ f ∈ files, isOkB (readCSV (dataRoot ++ [f])) = false →
      (LogLevel.error,
        LogMsg.text ("Unable to convert file to dataframe: " ++ pathStr (dataRoot ++ [f]))) ∈
        (set_initial_data readCSV files st).log) := by
  refine ⟨(set_initial_data_counts readCSV files st).1,
    (set_initial_data_counts readCSV files st).2, ?_⟩
  intro f hf hbad
  exact set_initial_data_err_mem readCSV files st f hf hbad

/-- Claim C7, witness: a concrete directory with one valid and one
malformed file registers one dataset and logs one parse-failure error. -/
theorem claim7_witness :
    (set_initial_data
        (fun p => if p = ["./data", "movies.csv"] then Except.ok ⟨["t"], [["m"]]⟩
          else Except.error "ParserError")
        ["movies.csv", "bad.csv"] ⟨[], [], "", []⟩).datasets.length =
      ([] : List (String × DataFrame)).length +
        (["movies.csv", "bad.csv"].countP (fun f =>
          isOkB ((fun p => if p = ["./data", "movies.csv"] then Except.ok (⟨["t"], [["m"]]⟩ : DataFrame)
            else Except.error "ParserError") (dataRoot ++ [f])))) ∧
    (set_initial_data
        (fun p => if p = ["./data", "movies.csv"] then Except.ok ⟨["t"], [["m"]]⟩
          else Except.error "ParserError")
        ["movies.csv", "bad.csv"] ⟨[], [], "", []⟩).log.countP errLogP =
      ([] : List LogEntry).countP errLogP +
        (["movies.csv", "bad.csv"].countP (fun f =>
          !(isOkB ((fun p => if p = ["./data", "movies.csv"] then Except.ok (⟨["t"], [["m"]]⟩ : DataFrame)
            else Except.error "ParserError") (dataRoot ++ [f]))))) ∧
    (∀ f ∈ ["movies.csv", "bad.csv"],
      isOkB ((fun p => if p = ["./data", "movies.csv"] then Except.ok (⟨["t"], [["m"]]⟩ : DataFrame)
        else Except.error "ParserError") (dataRoot ++ [f])) = false →
      (LogLevel.error,
        LogMsg.text ("Unable to convert file to dataframe: " ++ pathStr (dataRoot ++ [f]))) ∈
        (set_initial_data
          (fun p => if p = ["./data", "movies.csv"] then Except.ok ⟨["t"], [["m"]]⟩
            else Except.error "ParserError")
          ["movies.csv", "bad.csv"] ⟨[], [], "", []⟩).log) :=
  claim7_startup_counts
    (fun p => if p = ["./data", "movies.csv"] then Except.ok ⟨["t"], [["m"]]⟩
      else Except.error "ParserError")
    ["movies.csv", "bad.csv"] ⟨[], [], "", []⟩

/-- Claim C8: if a filesystem deletion raises during the cleanup walk,
the exception escapes the query-completion handler and no combined
dataset is registered in that cycle, whatever was parsed beforehand. -/
theorem claim8_cleanup_error_propagates (readCSV : Path → Except String DataFrame)
    (faults : Path → Bool) (now : String) (cs : FSForest) (qname : String)
    (st : GuiState) (c : CleanupSt) (e : String)
    (hfail : runEntries faults (osWalkBU tmpRoot cs) ⟨initFS cs, qname, []⟩ = (c, some e)) :
    (finish_query readCSV faults now cs qname st).err = some e ∧
    (finish_query readCSV faults now cs qname st).gui.datasets = st.datasets := by
  simp [finish_query, hfail]

/-- Claim C8, witness: a concrete run in which one table parses but
removing its file raises, so the handler ends with the error and no
dataset. -/
theorem claim8_witness :
    runEntries (fun p => if p = ["./tmp_data", "a.csv"] then true else false)
        (osWalkBU tmpRoot (.cons (.file "a.csv") .nil))
        ⟨initFS (.cons (.file "a.csv") .nil), "r", []⟩ =
      (⟨initFS (.cons (.file "a.csv") .nil), "a.csv", []⟩,
        some ("OSError: " ++ pathStr ["./tmp_data", "a.csv"])) ∧
    ((finish_query (fun _ => Except.ok ⟨["col"], [["x"]]⟩)
        (fun p => if p = ["./tmp_data", "a.csv"] then true else false)
        "12:00:00" (.cons (.file "a.csv") .nil) "r" ⟨[], [], "", []⟩).err =
      some ("OSError: " ++ pathStr ["./tmp_data", "a.csv"]) ∧
    (finish_query (fun _ => Except.ok ⟨["col"], [["x"]]⟩)
        (fun p => if p = ["./tmp_data", "a.csv"] then true else false)
        "12:00:00" (.cons (.file "a.csv") .nil) "r" ⟨[], [], "", []⟩).gui.datasets =
      ([] : List (String × DataFrame))) :=
  ⟨by decide,
    claim8_cleanup_error_propagates
      (fun _ => Except.ok ⟨["col"], [["x"]]⟩)
      (fun p => if p = ["./tmp_data", "a.csv"] then true else false)
      "12:00:00" (.cons (.file "a.csv") .nil) "r" ⟨[], [], "", []⟩
      ⟨initFS (.cons (.file "a.csv") .nil), "a.csv", []⟩
      ("OSError: " ++ pathStr ["./tmp_data", "a.csv"]) (by decide)⟩

theorem getLast?_cons_concat {α : Type} (x : α) (a b : List α) (y : α) :
    (x :: (a ++ (b ++ [y]))).getLast? = some y := by
  rw [← List.append_assoc, ← List.cons_append, List.getLast?_concat]

/-- Claim C5: after every fault-free query cycle the scratch directory is
empty — every file and every subdirectory below `./tmp_data` has been
removed, only the scratch root itself remains — regardless of how the
per-file parsing went (`readCSV` is arbitrary). -/
theorem claim5_cleanup_empties_scratch (readCSV : Path → Except String DataFrame)
    (now : String) (cs : FSForest) (qname : String) (st : GuiState)
    (hwf : wfF cs = true) :
    (finish_query readCSV faults0 now cs qname st).fs = ⟨∅, {tmpRoot}⟩ ∧
    (finish_query readCSV faults0 now cs qname st).err = none := by
  obtain ⟨nm, lg, hc⟩ := cleanup_ok cs qname hwf
  simp only [finish_query, hc]
  cases hdfs : (readPhase readCSV (osWalkTD tmpRoot cs)).1 with
  | nil => simp
  | cons d ds => simp [pd_concat]

/-- Claim C5, witness: a concrete nested scratch tree is fully emptied by
the query cycle. -/
theorem claim5_witness :
    wfF (FSForest.cons (.dir "sub" (.cons (.file "b.csv") .nil)) .nil) = true ∧
    ((finish_query (fun _ => Except.error "boom") faults0 "12:00:00"
        (FSForest.cons (.dir "sub" (.cons (.file "b.csv") .nil)) .nil) "r"
        ⟨[], [], "", []⟩).fs = ⟨∅, {tmpRoot}⟩ ∧
      (finish_query (fun _ => Except.error "boom") faults0 "12:00:00"
        (FSForest.cons (.dir "sub" (.cons (.file "b.csv") .nil)) .nil) "r"
        ⟨[], [], "", []⟩).err = none) :=
  ⟨by decide,
    claim5_cleanup_empties_scratch (fun _ => Except.error "boom") "12:00:00"
      (FSForest.cons (.dir "sub" (.cons (.file "b.csv") .nil)) .nil) "r"
      ⟨[], [], "", []⟩ (by decide)⟩

/-- Claim C6: a fault-free query cycle in which zero tables are parsed
registers no dataset, raises nothing, and ends by logging the
informational "No dataset created" message. -/
theorem claim6_no_tables_no_dataset (readCSV : Path → Except String DataFrame)
    (now : String) (cs : FSForest) (qname : String) (st : GuiState)
    (hwf : wfF cs = true)
    (hzero : (readPhase readCSV (osWalkTD tmpRoot cs)).1 = []) :
    (finish_query readCSV faults0 now cs qname st).gui.datasets = st.datasets ∧
    (finish_query readCSV faults0 now cs qname st).err = none ∧
    (finish_query readCSV faults0 now cs qname st).gui.log.getLast? =
      some (LogLevel.info, LogMsg.text "No dataset created") := by
  obtain ⟨nm, lg, hc⟩ := cleanup_ok cs qname hwf
  simp only [finish_query, hc, hzero, List.isEmpty_nil, if_true]
  refine ⟨by trivial, by trivial, ?_⟩
  rw [List.getLast?_concat]

/-- Claim C6, witness: a scratch directory holding only a non-CSV file
yields zero parsed tables, no dataset, and the informational message. -/
theorem claim6_witness :
    wfF (FSForest.cons (.file "notes.txt") .nil) = true ∧
    (readPhase (fun _ => Except.error "boom")
      (osWalkTD tmpRoot (FSForest.cons (.file "notes.txt") .nil))).1 = [] ∧
    ((finish_query (fun _ => Except.error "boom") faults0 "12:00:00"
        (FSForest.cons (.file "notes.txt") .nil) "r" ⟨[], [], "", []⟩).gui.datasets =
        ([] : List (String × DataFrame)) ∧
      (finish_query (fun _ => Except.error "boom") faults0 "12:00:00"
        (FSForest.cons (.file "notes.txt") .nil) "r" ⟨[], [], "", []⟩).err = none ∧
      (finish_query (fun _ => Except.error "boom") faults0 "12:00:00"
        (FSForest.cons (.file "notes.txt") .nil) "r" ⟨[], [], "", []⟩).gui.log.getLast? =
        some (LogLevel.info, LogMsg.text "No dataset created")) :=
  ⟨by decide, by decide,
    claim6_no_tables_no_dataset (fun _ => Except.error "boom") "12:00:00"
      (FSForest.cons (.file "notes.txt") .nil) "r" ⟨[], [], "", []⟩
      (by decide) (by decide)⟩

/-- Claim C4: a fault-free query cycle over a scratch directory in which
every file is named `*.csv` and parses successfully (at least one file
present) registers exactly one new dataset whose row count is the sum of
the row counts of all the files, and leaves the scratch directory with
no files and no subdirectories. -/
theorem claim4_query_combines_rows (readCSV : Path → Except String DataFrame)
    (now : String) (cs : FSForest) (qname : String) (st : GuiState)
    (hwf : wfF cs = true)
    (hne : filePathsF tmpRoot cs ≠ [])
    (hcsv : ∀ e ∈ osWalkTD tmpRoot cs, ∀ f ∈ e.files, pyEndsWith f ".csv" = true)
    (hok : ∀ e ∈ osWalkTD tmpRoot cs, ∀ f ∈ e.files, isOkB (readCSV (e.root ++ [f])) = true) :
    (finish_query readCSV faults0 now cs qname st).err = none ∧
    (∃ nm df, (finish_query readCSV faults0 now cs qname st).gui.datasets =
        st.datasets ++ [(nm, df)] ∧
      df.rows.length = ((filePathsF tmpRoot cs).map (okRowCount readCSV)).sum) ∧
    (finish_query readCSV faults0 now cs qname st).fs = ⟨∅, {tmpRoot}⟩ := by
  have hok' : ∀ e ∈ osWalkTD tmpRoot cs, ∀ f ∈ e.files,
      ∃ df, readCSV (e.root ++ [f]) = .ok df := by
    intro e he f hf
    exact (isOkB_iff _).mp (hok e he f hf)
  have hmap := readPhase_all readCSV (osWalkTD tmpRoot cs) hcsv hok'
  have hperm := enumFiles_osWalkTD cs tmpRoot
  have hlen : (readPhase readCSV (osWalkTD tmpRoot cs)).1.length =
      (filePathsF tmpRoot cs).length := by
    have h1 := congrArg List.length hmap
    simp only [List.length_map] at h1
    rw [h1, hperm.length_eq]
  have hdfs_ne : (readPhase readCSV (osWalkTD tmpRoot cs)).1 ≠ [] := by
    intro hnil
    rw [hnil] at hlen
    simp only [List.length_nil] at hlen
    exact hne (List.length_eq_zero.mp hlen.symm)
  obtain ⟨nmc, lgc, hc⟩ := cleanup_ok cs qname hwf
  cases hdfs : (readPhase readCSV (osWalkTD tmpRoot cs)).1 with
  | nil => exact absurd hdfs hdfs_ne
  | cons d ds =>
    obtain ⟨df, hpc, hrows⟩ := pd_concat_rows d ds
    rw [hdfs] at hmap
    have hsum : df.rows.length = ((filePathsF tmpRoot cs).map (okRowCount readCSV)).sum := by
      rw [hrows, hmap]
      exact (hperm.map (okRowCount readCSV)).sum_eq
    simp only [finish_query, hc, hdfs, List.isEmpty_cons, Bool.false_eq_true, if_false, hpc]
    exact ⟨by trivial, ⟨nmc ++ "_" ++ now, df, by simp, hsum⟩, by trivial⟩

/-- Claim C4, witness: two CSV files, one of them nested, with one and
two rows, produce one combined dataset of three rows and an empty
scratch directory. -/
theorem claim4_witness :
    wfF (FSForest.cons (.file "a.csv")
      (.cons (.dir "sub" (.cons (.file "b.csv") .nil)) .nil)) = true ∧
    filePathsF tmpRoot (FSForest.cons (.file "a.csv")
      (.cons (.dir "sub" (.cons (.file "b.csv") .nil)) .nil)) ≠ [] ∧
    (∀ e ∈ osWalkTD tmpRoot (FSForest.cons (.file "a.csv")
        (.cons (.dir "sub" (.cons (.file "b.csv") .nil)) .nil)),
      ∀ f ∈ e.files, pyEndsWith f ".csv" = true) ∧
    (∀ e ∈ osWalkTD tmpRoot (FSForest.cons (.file "a.csv")
        (.cons (.dir "sub" (.cons (.file "b.csv") .nil)) .nil)),
      ∀ f ∈ e.files, isOkB ((fun p =>
        if p = ["./tmp_data", "a.csv"] then Except.ok (⟨["c"], [["1"]]⟩ : DataFrame)
        else if p = ["./tmp_data", "sub", "b.csv"] then Except.ok (⟨["c"], [["2"], ["3"]]⟩ : DataFrame)
        else Except.error "boom") (e.root ++ [f])) = true) ∧
    ((finish_query (fun p =>
        if p = ["./tmp_data", "a.csv"] then Except.ok (⟨["c"], [["1"]]⟩ : DataFrame)
        else if p = ["./tmp_data", "sub", "b.csv"] then Except.ok (⟨["c"], [["2"], ["3"]]⟩ : DataFrame)
        else Except.error "boom") faults0 "12:00:00"
        (FSForest.cons (.file "a.csv")
          (.cons (.dir "sub" (.cons (.file "b.csv") .nil)) .nil)) "r"
        ⟨[], [], "", []⟩).err = none ∧
      (∃ nm df, (finish_query (fun p =>
        if p = ["./tmp_data", "a.csv"] then Except.ok (⟨["c"], [["1"]]⟩ : DataFrame)
        else if p = ["./tmp_data", "sub", "b.csv"] then Except.ok (⟨["c"], [["2"], ["3"]]⟩ : DataFrame)
        else Except.error "boom") faults0 "12:00:00"
        (FSForest.cons (.file "a.csv")
          (.cons (.dir "sub" (.cons (.file "b.csv") .nil)) .nil)) "r"
        ⟨[], [], "", []⟩).gui.datasets = ([] : List (String × DataFrame)) ++ [(nm, df)] ∧
        df.rows.length = ((filePathsF tmpRoot (FSForest.cons (.file "a.csv")
          (.cons (.dir "sub" (.cons (.file "b.csv") .nil)) .nil))).map
            (okRowCount (fun p =>
              if p = ["./tmp_data", "a.csv"] then Except.ok (⟨["c"], [["1"]]⟩ : DataFrame)
              else if p = ["./tmp_data", "sub", "b.csv"] then Except.ok (⟨["c"], [["2"], ["3"]]⟩ : DataFrame)
              else Except.error "boom"))).sum) ∧
      (finish_query (fun p =>
        if p = ["./tmp_data", "a.csv"] then Except.ok (⟨["c"], [["1"]]⟩ : DataFrame)
        else if p = ["./tmp_data", "sub", "b.csv"] then Except.ok (⟨["c"], [["2"], ["3"]]⟩ : DataFrame)
        else Except.error "boom") faults0 "12:00:00"
        (FSForest.cons (.file "a.csv")
          (.cons (.dir "sub" (.cons (.file "b.csv") .nil)) .nil)) "r"
        ⟨[], [], "", []⟩).fs = ⟨∅, {tmpRoot}⟩) :=
  ⟨by decide, by decide, by decide, by decide,
    claim4_query_combines_rows (fun p =>
        if p = ["./tmp_data", "a.csv"] then Except.ok (⟨["c"], [["1"]]⟩ : DataFrame)
        else if p = ["./tmp_data", "sub", "b.csv"] then Except.ok (⟨["c"], [["2"], ["3"]]⟩ : DataFrame)
        else Except.error "boom") "12:00:00"
      (FSForest.cons (.file "a.csv")
        (.cons (.dir "sub" (.cons (.file "b.csv") .nil)) .nil)) "r"
      ⟨[], [], "", []⟩ (by decide) (by decide) (by decide) (by decide)⟩

end RecGui
